import Mathlib

/-!
Verification development for the Mantis price-tracker backend.

The Python sources under `backend/app` are shallowly embedded here:

* text is modelled as `List Char` (one entry per Unicode code point, matching
  Python's `str` indexing and slicing semantics);
* SQLAlchemy rows are plain structures, the database is a pair of row lists,
  and a session's transactional behaviour (everything buffered until a single
  `commit`, discarded by `rollback`/`close`) is made explicit in each handler;
* external collaborators (the Selenium renderer, the provider HTTP call,
  `json.loads`, `urlparse(...).netloc`) are passed in as function-typed
  parameters, so every failure mode the Python code observes is a possible
  argument value;
* timestamps are `Nat` (only ordering and equality matter to the code under
  verification) and prices are `Int` (the code only compares and stores them).
-/

deriving instance DecidableEq for Except

namespace Mantis

/-! ### Text helpers (Python `str` operations on `List Char`) -/

/-- Whitespace test matching Python's `str.strip` / `str.isspace` default set. -/
def wsChar (c : Char) : Bool :=
  c == ' ' || c == '\t' || c == '\n' || c == '\r' || c == '\x0b' || c == '\x0c'

/-- Python `str.strip()`: drop leading and trailing whitespace. -/
def trimChars (l : List Char) : List Char :=
  ((l.dropWhile wsChar).reverse.dropWhile wsChar).reverse

/-- Split on the newline character, keeping empty pieces (like `str.split("\n")`). -/
def splitNl : List Char → List (List Char)
  | [] => [[]]
  | c :: rest =>
    if c = '\n' then [] :: splitNl rest
    else
      match splitNl rest with
      | [] => [[c]]
      | p :: ps => (c :: p) :: ps

/-- Python `str.splitlines()` restricted to `\n` boundaries: like `splitNl`
but without a trailing empty piece (`"a\n".splitlines() == ["a"]`,
`"".splitlines() == []`). -/
def splitlinesL (l : List Char) : List (List Char) :=
  let parts := splitNl l
  if parts.getLast? = some [] then parts.dropLast else parts

/-- Join pieces with a newline separator (`"\n".join(...)`). -/
def joinNl : List (List Char) → List Char
  | [] => []
  | [l] => l
  | l :: ls => l ++ '\n' :: joinNl ls

/-- Fuel-driven worker for `splitOnL`; the fuel starts at the length of the
input, which bounds the number of steps, so the recursion is structural. -/
def splitGo (sep : List Char) : Nat → List Char → List (List Char)
  | _, [] => [[]]
  | 0, l => [l]
  | fuel + 1, c :: rest =>
    if sep.isPrefixOf (c :: rest) then
      [] :: splitGo sep fuel (List.drop (sep.length - 1) rest)
    else
      match splitGo sep fuel rest with
      | [] => [[c]]
      | p :: ps => (c :: p) :: ps

/-- Python `str.split(sep)` for a non-empty separator: leftmost,
non-overlapping occurrences. -/
def splitOnL (sep l : List Char) : List (List Char) :=
  if sep.isEmpty then [l] else splitGo sep l.length l

/-! ### Data model (`models.py`) -/

/-- Row of the `products` table (`models.py`, class `Product`).
`(user_id, url)` carries a uniqueness constraint in the schema. -/
structure Product where
  id : Nat
  user_id : Nat
  url : String
  title : Option String
  domain : Option String
  stock_status : Option String
  last_checked : Option Nat
  created_at : Nat
deriving Repr, DecidableEq

/-- Row of the `price_history` table (`models.py`, class `PriceHistory`). -/
structure PriceHistory where
  id : Nat
  product_id : Nat
  price : Int
  currency : String
  timestamp : Nat
deriving Repr, DecidableEq

/-- Row of the `provider_configs` table (`models.py`, class `ProviderConfig`);
only the fields the extraction dispatch reads. -/
structure ProviderConfig where
  id : Nat
  user_id : Nat
  provider_name : String
  api_key : String
  model_name : String
  is_active : Bool
deriving Repr, DecidableEq

/-- The structured fields returned by extraction
(`schemas.py`, `ProductExtractionSchema`). -/
structure StructuredFields where
  title : String
  price : Int
  currency : String
  stock_status : String
  website : Option String
deriving Repr, DecidableEq

/-- The durable store: the two row sets the refresh pipeline touches. -/
structure DB where
  products : List Product
  history : List PriceHistory
deriving Repr, DecidableEq

/-- Observations recorded for a given product id. -/
def obsFor (db : DB) (pid : Nat) : List PriceHistory :=
  db.history.filter (fun h => h.product_id == pid)

/-- Product rows with a given id. -/
def rowsFor (db : DB) (pid : Nat) : List Product :=
  db.products.filter (fun p => p.id == pid)

/-- Fresh primary key handed out by the autoincrement column when a new
product row is flushed. -/
def nextProductId (db : DB) : Nat :=
  (db.products.map (fun p => p.id)).foldr Nat.max 0 + 1

/-- Python's `x or default` for an optional string: `None` and `""` are falsy. -/
def orFallback (s : Option String) (d : String) : String :=
  match s with
  | some v => if v.isEmpty then d else v
  | none => d

/-! ### Content normalizer (`services/agent.py`, `_clean_html`)

The rendered page is modelled as the DOM forest BeautifulSoup produces,
encoded as a first-child/next-sibling tree so that all functions are
structurally recursive. -/

/-- DOM forest: a chain of siblings, each either a text node or an element
with a child forest. -/
inductive HTree where
  | nilNode : HTree
  | textNode (s : List Char) (next : HTree) : HTree
  | elemNode (tag : String) (children : HTree) (next : HTree) : HTree
deriving Repr, DecidableEq

/-- Tags removed by `_clean_html`: `soup(["script", "style", "noscript",
"footer", "nav"])` followed by `tag.decompose()`. -/
def BANNED_TAGS : List String := ["script", "style", "noscript", "footer", "nav"]

/-- Drop every element whose tag is in `banned`, together with its whole
subtree (`tag.decompose()`). -/
def decomposeBanned (banned : List String) : HTree → HTree
  | .nilNode => .nilNode
  | .textNode s next => .textNode s (decomposeBanned banned next)
  | .elemNode tag children next =>
    if banned.contains tag then decomposeBanned banned next
    else .elemNode tag (decomposeBanned banned children) (decomposeBanned banned next)

/-- All text nodes of the forest in document order
(the strings `soup.get_text` concatenates). -/
def collectTexts : HTree → List (List Char)
  | .nilNode => []
  | .textNode s next => s :: collectTexts next
  | .elemNode _ children next => collectTexts children ++ collectTexts next

/-- Whether some element with a tag in `banned` occurs anywhere in the forest. -/
def hasBannedElem (banned : List String) : HTree → Bool
  | .nilNode => false
  | .textNode _ next => hasBannedElem banned next
  | .elemNode tag children next =>
    banned.contains tag || hasBannedElem banned children || hasBannedElem banned next

/-- Default of the `SCRAPER_MAX_CHARS` environment knob (`agent.py`). -/
def MAX_CHARS : Nat := 15000

/-- The normalizer before truncation: decompose banned elements, extract text
with newline separators (`get_text(separator="\n")`), strip each line, drop
blank lines, rejoin with newlines. -/
def cleanedText (doc : HTree) : List Char :=
  let text := joinNl (collectTexts (decomposeBanned BANNED_TAGS doc))
  let lines := (splitlinesL text).map trimChars
  joinNl (lines.filter (fun l => !l.isEmpty))

/-- Embedding of `_clean_html`: normalize, then hard-truncate to the
character budget. -/
def _clean_html (maxChars : Nat) (doc : HTree) : List Char :=
  let cleaned := cleanedText doc
  if cleaned.length > maxChars then cleaned.take maxChars else cleaned

/-! ### Groq adapter (`providers/groq.py`, `GroqAdapter.extract_product_info`) -/

/-- The system prompt sent with every Groq extraction request. -/
def GROQ_SYSTEM_PROMPT : String :=
  "You are a product information extraction assistant.\nExtract the following information from the HTML content:\n- title: Product name/title\n- price: Numeric price value (just the number)\n- currency: Currency code (e.g., USD, EUR, INR)\n- stock_status: One of \"In Stock\", \"Out of Stock\", or \"Unknown\"\n\nReturn ONLY valid JSON with these exact keys. No additional text."

/-- The user prompt: the f-string embeds `html_content[:8000]`. -/
def groqUserPrompt (html_content : List Char) : List Char :=
  "Extract product information from this HTML:\n\n".data
    ++ html_content.take 8000
    ++ "\n\nReturn JSON with: title, price, currency, stock_status".data

/-- The `messages` array of the chat-completions request body. -/
def groqMessages (html_content : List Char) : List (String × List Char) :=
  [("system", GROQ_SYSTEM_PROMPT.data), ("user", groqUserPrompt html_content)]

/-- JSON values as far as the adapter's response handling distinguishes them. -/
inductive JValue where
  | str (s : String)
  | num (x : Int)
  | boolVal (b : Bool)
  | null
deriving Repr, DecidableEq

/-- A decoded JSON object: association list of keys to values. -/
abbrev JObj := List (String × JValue)

/-- Python `dict.get(key)` on a decoded object. -/
def jget (o : JObj) (k : String) : Option JValue :=
  (o.find? (fun kv => kv.1 == k)).map (fun kv => kv.2)

/-- Markdown fence markers looked for by the adapter's JSON recovery. -/
def FENCE_JSON : List Char := "```json".data

/-- Plain triple-backtick fence marker. -/
def FENCE : List Char := "```".data

/-- The adapter's one-shot recovery before re-parsing:
`content.split("```json")[1].split("```")[0].strip()` when a `` ```json ``
fence is present, else the same with a bare `` ``` `` fence, else the content
unchanged. -/
def stripCodeFences (content : List Char) : List Char :=
  if (splitOnL FENCE_JSON content).length > 1 then
    trimChars ((splitOnL FENCE ((splitOnL FENCE_JSON content).getD 1 [])).headD [])
  else if (splitOnL FENCE content).length > 1 then
    trimChars ((splitOnL FENCE ((splitOnL FENCE content).getD 1 [])).headD [])
  else content

/-- Errors surfaced by the extraction pipeline. -/
inductive ExtractError where
  | malformed (msg : String)
  | validation
  | noProvider
  | unsupported (name : String)
deriving Repr, DecidableEq

/-- Response-content handling of `GroqAdapter.extract_product_info`:
`json.loads` (modelled by the `jsonLoads` parameter), one retry after
stripping code fences, and the wrapping `Exception` when both parses fail. -/
def parseGroqResponse (jsonLoads : List Char → Option JObj) (content : List Char) :
    Except ExtractError JObj :=
  match jsonLoads content with
  | some r => .ok r
  | none =>
    match jsonLoads (stripCodeFences content) with
    | some r => .ok r
    | none => .error (.malformed "Failed to extract product info with Groq")

/-- The closed stock-status vocabulary of `ProductExtractionSchema`. -/
def STOCK_VALUES : List String := ["In Stock", "Out of Stock", "Unknown"]

/-- Field coercion done in `extract_product_data` on the adapter's dict:
`result.get(key, default)` for each field, then pydantic validation of
`ProductExtractionSchema` (which rejects a stock status outside the closed
vocabulary and non-string/non-numeric field values). -/
def coerceSchema (r : JObj) : Except ExtractError StructuredFields := do
  let title ← match jget r "title" with
    | none => pure "Unknown Product"
    | some (.str s) => pure s
    | some _ => throw .validation
  let price ← match jget r "price" with
    | none => pure (0 : Int)
    | some (.num x) => pure x
    | some _ => throw .validation
  let currency ← match jget r "currency" with
    | none => pure "USD"
    | some (.str s) => pure s
    | some _ => throw .validation
  let stock ← match jget r "stock_status" with
    | none => pure "Unknown"
    | some (.str s) => if STOCK_VALUES.contains s then pure s else throw .validation
    | some _ => throw .validation
  let website ← match jget r "website" with
    | none => pure (none : Option String)
    | some (.str s) => pure (some s)
    | some .null => pure (none : Option String)
    | some _ => throw .validation
  pure ⟨title, price, currency, stock, website⟩

/-- The Groq branch of `extract_product_data`: parse the provider content,
then coerce the resulting dict into structured fields. -/
def groqExtract (jsonLoads : List Char → Option JObj) (content : List Char) :
    Except ExtractError StructuredFields :=
  match parseGroqResponse jsonLoads content with
  | .error e => .error e
  | .ok r => coerceSchema r

/-! ### Extraction dispatch (`services/agent.py`, `extract_product_data`) -/

/-- Outcome of provider resolution inside `extract_product_data`. -/
inductive ProviderResolution where
  | configured (c : ProviderConfig)
  | geminiFallback (api_key : String)
  | noProvider
deriving Repr, DecidableEq

/-- Provider resolution as the code performs it: the first `ProviderConfig`
with `is_active`, over the whole table (the query carries no user filter and
`extract_product_data` receives no owner); else the `GOOGLE_API_KEY`
environment fallback; else the `RuntimeError` for a missing provider. -/
def resolveProvider (configs : List ProviderConfig) (google_api_key : Option String) :
    ProviderResolution :=
  match configs.find? (fun c => c.is_active) with
  | some c => .configured c
  | none =>
    match google_api_key with
    | some k => .geminiFallback k
    | none => .noProvider

/-- Modelled from the spec: the resolution rule as §4.2 states it — "Resolves
the owner's active ProviderConfig" for the requesting owner, with the same
environment fallback otherwise. Stated only to compare with
`resolveProvider`, the rule the code implements. -/
def resolveProviderSpec (configs : List ProviderConfig) (owner : Nat)
    (google_api_key : Option String) : ProviderResolution :=
  match configs.find? (fun c => c.is_active && c.user_id == owner) with
  | some c => .configured c
  | none =>
    match google_api_key with
    | some k => .geminiFallback k
    | none => .noProvider

/-! ### Derived view (`routers/products.py`, `_serialize_tracked_product`) -/

/-- The response schema of a tracked product (`schemas.py`,
`TrackedProductSchema`); only fields the routes fill are kept. -/
structure TrackedProductSchema where
  id : Nat
  url : String
  title : Option String
  price : Int
  currency : String
  stock_status : String
  website : Option String
  last_checked : Nat
  previous_price : Option Int
  previous_currency : Option String
  lowest_price : Option Int
  lowest_currency : Option String
  lowest_timestamp : Option Nat
deriving Repr, DecidableEq

/-- Python `min(entries, key=lambda e: e.price)` starting from a first
element: a later element replaces the current best only under strict
comparison, so the first minimal element wins. -/
def minByPrice : PriceHistory → List PriceHistory → PriceHistory
  | best, [] => best
  | best, e :: rest => minByPrice (if e.price < best.price then e else best) rest

/-- Stable insertion keeping earlier elements first among equal timestamps. -/
def insertByTs (e : PriceHistory) : List PriceHistory → List PriceHistory
  | [] => [e]
  | x :: xs => if x.timestamp ≤ e.timestamp then x :: insertByTs e xs else e :: x :: xs

/-- The `ORDER BY timestamp ASC` of the history query, modelled as a stable
sort of the stored rows. -/
def sortByTs : List PriceHistory → List PriceHistory
  | [] => []
  | e :: rest => insertByTs e (sortByTs rest)

/-- Body of `_serialize_tracked_product` after the history query: `latest` is
the last entry, `previous` the second-to-last and `lowest` the price-minimal
entry, both only when at least two entries exist. An empty history raises
`RuntimeError`, modelled as `none`. -/
def serializeEntries (product : Product) (entries : List PriceHistory) :
    Option TrackedProductSchema :=
  match entries.getLast? with
  | none => none
  | some latest =>
    let previous := if entries.length ≥ 2 then entries.get? (entries.length - 2) else none
    let lowest :=
      if entries.length ≥ 2 then
        match entries with
        | [] => none
        | e :: rest => some (minByPrice e rest)
      else none
    some {
      id := product.id
      url := product.url
      title := product.title
      price := latest.price
      currency := latest.currency
      stock_status := orFallback product.stock_status "Unknown"
      website := product.domain
      last_checked := product.last_checked.getD latest.timestamp
      previous_price := previous.map (fun e => e.price)
      previous_currency := previous.map (fun e => e.currency)
      lowest_price := lowest.map (fun e => e.price)
      lowest_currency := lowest.map (fun e => e.currency)
      lowest_timestamp := lowest.map (fun e => e.timestamp) }

/-- Embedding of `_serialize_tracked_product`: query the product's history
ordered by ascending timestamp, then serialize. -/
def _serialize_tracked_product (db : DB) (product : Product) :
    Option TrackedProductSchema :=
  serializeEntries product (sortByTs (obsFor db product.id))

/-- Embedding of the `GET /products` handler `list_products`: serialize every
product of the current user, silently skipping those whose serialization
raises (`except RuntimeError: continue`). -/
def list_products (db : DB) (uid : Nat) : List TrackedProductSchema :=
  (db.products.filter (fun p => p.user_id == uid)).filterMap
    (fun p => _serialize_tracked_product db p)

/-! ### Batch refresh (`services/refresh.py`) -/

/-- External collaborators and clock for one sweep. `render` and `extract`
model `fetch_page_content` and `extract_product_data` (their outcome depends
on the fetched URL and page, not on the store); `commitOk` injects per-item
store failures at `db.commit()`. -/
structure RefreshEnv where
  render : String → Except String String
  extract : String → Except String StructuredFields
  commitOk : Nat → Bool
  now : Nat

/-- Field overwrite done by `_refresh_product` on success:
`title`, `stock_status` and `last_checked` are replaced, `domain` is replaced
only when the extraction returned a truthy website
(`structured.website or product.domain`). -/
def applyRefresh (p : Product) (s : StructuredFields) (now : Nat) : Product :=
  { p with
    title := some s.title
    domain :=
      match s.website with
      | some w => if w.isEmpty then p.domain else some w
      | none => p.domain
    stock_status := some s.stock_status
    last_checked := some now }

/-- One iteration of the sweep loop: `_refresh_product` followed by
`db.commit()` on success, `db.rollback()` on any failure (render, extraction,
or the commit itself), returning the store state and whether the item
succeeded. A rolled-back item leaves the store exactly as it was. -/
def refreshOneStep (env : RefreshEnv) (db : DB) (p : Product) : DB × Bool :=
  match env.render p.url with
  | .error _ => (db, false)
  | .ok page =>
    match env.extract page with
    | .error _ => (db, false)
    | .ok s =>
      if env.commitOk p.id then
        ({ products :=
             db.products.map (fun q => if q.id == p.id then applyRefresh q s env.now else q)
           history :=
             db.history ++ [⟨db.history.length + 1, p.id, s.price, s.currency, env.now⟩] },
         true)
      else (db, false)

/-- Embedding of `refresh_all_products`: iterate the product snapshot
sequentially, committing or rolling back per item, and log each item's
outcome (the code logs success and failure per URL). -/
def refresh_all_products (env : RefreshEnv) (db0 : DB) : DB × List (Nat × Bool) :=
  db0.products.foldl
    (fun acc p =>
      let r := refreshOneStep env acc.1 p
      (r.1, acc.2 ++ [(p.id, r.2)]))
    (db0, [])

/-- Whether an item of the sweep succeeds; render and extraction outcomes
depend only on the item's URL, the commit outcome only on its id. -/
def itemOk (env : RefreshEnv) (p : Product) : Bool :=
  match env.render p.url with
  | .error _ => false
  | .ok page =>
    match env.extract page with
    | .error _ => false
    | .ok _ => env.commitOk p.id

/-- The structured fields an item would extract, when both stages succeed. -/
def itemFields (env : RefreshEnv) (p : Product) : Option StructuredFields :=
  match env.render p.url with
  | .error _ => none
  | .ok page =>
    match env.extract page with
    | .error _ => none
    | .ok s => some s

/-! ### On-demand registration (`routers/products.py`, `fetch_product_page`) -/

/-- Typed errors of the on-demand path: render failures become HTTP 400,
extraction failures HTTP 502, and a store failure aborts the request with the
session rolled back on close. -/
inductive FetchError where
  | renderFailed (msg : String)
  | extractFailed (msg : String)
  | storeFailed
deriving Repr, DecidableEq

/-- Domain computation of `fetch_product_page`: the extracted website when
truthy, else `urlparse(url).netloc or None` (the `netloc` argument). -/
def fetchDomain (s : StructuredFields) (netloc : Option String) : Option String :=
  match s.website with
  | some w => if w.isEmpty then netloc else some w
  | none => netloc

/-- Field overwrite done by `fetch_product_page` on the (possibly fresh)
product row: title, domain, stock status and last-checked are all assigned. -/
def applyFetch (p : Product) (s : StructuredFields) (domain : Option String)
    (now : Nat) : Product :=
  { p with
    title := some s.title
    domain := domain
    stock_status := some s.stock_status
    last_checked := some now }

/-- The writes buffered in the session between the upsert and the single
`db.commit()`: the upserted row (inserted when `isNew`) and the new
observation. -/
structure PendingWrites where
  productRow : Product
  isNew : Bool
  obs : PriceHistory
deriving Repr, DecidableEq

/-- Apply the buffered writes atomically: this is what the one `db.commit()`
of `fetch_product_page` makes durable. -/
def commitWrites (db : DB) (w : PendingWrites) : DB :=
  { products :=
      if w.isNew then db.products ++ [w.productRow]
      else db.products.map (fun q => if q.id == w.productRow.id then w.productRow else q)
    history := db.history ++ [w.obs] }

/-- Embedding of the `POST /products/fetch` handler `fetch_product_page`.
`render` is the outcome of `fetch_page_content url`; `extractRes` the outcome
of `extract_product_data` on the rendered page; `netloc` the
`urlparse(url).netloc or None` fallback; `commitOk` injects a failure of the
flush/commit, after which the session is closed and the transaction rolled
back. The function returns the HTTP outcome and the durable store state. -/
def fetch_product_page (db : DB) (uid : Nat) (url : String)
    (render : Except String String)
    (extractRes : String → Except String StructuredFields)
    (netloc : Option String) (now : Nat) (commitOk : Bool) :
    Except FetchError TrackedProductSchema × DB :=
  match render with
  | .error msg => (.error (.renderFailed msg), db)
  | .ok page =>
    match extractRes page with
    | .error msg => (.error (.extractFailed msg), db)
    | .ok s =>
      let domain := fetchDomain s netloc
      let upsert :=
        match db.products.find? (fun p => p.url == url && p.user_id == uid) with
        | some p => (applyFetch p s domain now, false)
        | none =>
          (applyFetch ⟨nextProductId db, uid, url, none, none, none, none, now⟩ s domain now,
           true)
      let w : PendingWrites :=
        ⟨upsert.1, upsert.2, ⟨db.history.length + 1, upsert.1.id, s.price, s.currency, now⟩⟩
      if commitOk then
        let db' := commitWrites db w
        (match _serialize_tracked_product db' upsert.1 with
         | some v => .ok v
         | none => .error .storeFailed,
         db')
      else (.error .storeFailed, db)

/-! ### Theorems -/

/-- C10: the Groq adapter's request embeds only `html_content[:8000]`: the
truncation bound 8000 is stricter than the normalizer budget `MAX_CHARS`, the
request messages for any content equal those for its first 8000 characters,
and any two contents agreeing on their first 8000 characters produce
identical request messages — content past that point never reaches the
provider. -/
theorem c10_groq_prompt_truncation :
    8000 < MAX_CHARS ∧
    (∀ content : List Char, groqMessages content = groqMessages (content.take 8000)) ∧
    (∀ a b : List Char, a.take 8000 = b.take 8000 → groqMessages a = groqMessages b) := by
  refine ⟨by norm_num [MAX_CHARS], ?_, ?_⟩
  · intro content
    simp [groqMessages, groqUserPrompt, List.take_take]
  · intro a b h
    simp [groqMessages, groqUserPrompt, h]

/-- C10 witness: the truncation theorem applied at concrete contents. -/
theorem c10_groq_prompt_truncation_witness :
    "page text".data.take 8000 = "page text".data.take 8000 ∧
    groqMessages "page text".data = groqMessages "page text".data :=
  ⟨rfl, c10_groq_prompt_truncation.2.2 "page text".data "page text".data rfl⟩

/-- C6 counterexample: with a store whose only active `ProviderConfig` belongs
to user 2 and no environment credential, a request on behalf of owner 1 is
resolved by the code to user 2's config — the claimed per-owner rule
(`resolveProviderSpec`) would instead fail with the no-provider error, since
owner 1 has no active config. -/
theorem c6_owner_scoping_counterexample :
    resolveProvider [⟨1, 2, "groq", "key2", "model2", true⟩] none
      = .configured ⟨1, 2, "groq", "key2", "model2", true⟩ ∧
    (⟨1, 2, "groq", "key2", "model2", true⟩ : ProviderConfig).user_id ≠ 1 ∧
    resolveProviderSpec [⟨1, 2, "groq", "key2", "model2", true⟩] 1 none = .noProvider := by
  refine ⟨rfl, by decide, rfl⟩

/-- C6 amended: the extraction dispatch resolves the first active
`ProviderConfig` of the whole table, regardless of which owner is requesting
(it receives no owner); when no active config exists at all it falls back to
the environment credential, and when neither exists it fails with the
no-provider-configured error rather than returning fields. -/
theorem c6_provider_resolution (configs : List ProviderConfig) (key : Option String) :
    (∀ c, configs.find? (fun c => c.is_active) = some c →
      resolveProvider configs key = .configured c ∧ c.is_active = true ∧ c ∈ configs) ∧
    (configs.find? (fun c => c.is_active) = none →
      ∀ k, key = some k → resolveProvider configs key = .geminiFallback k) ∧
    (configs.find? (fun c => c.is_active) = none → key = none →
      resolveProvider configs key = .noProvider) := by
  refine ⟨?_, ?_, ?_⟩
  · intro c hc
    exact ⟨by simp [resolveProvider, hc], List.find?_some hc, List.mem_of_find?_eq_some hc⟩
  · intro hn k hk
    simp [resolveProvider, hn, hk]
  · intro hn hk
    simp [resolveProvider, hn, hk]

/-- C6 witness: the amended resolution rule applied at concrete stores. -/
theorem c6_provider_resolution_witness :
    resolveProvider [] none = .noProvider ∧
    resolveProvider [⟨1, 2, "groq", "key2", "model2", true⟩] none
      = .configured ⟨1, 2, "groq", "key2", "model2", true⟩ ∧
    resolveProvider [] (some "g") = .geminiFallback "g" :=
  ⟨(c6_provider_resolution [] none).2.2 rfl rfl,
   ((c6_provider_resolution [⟨1, 2, "groq", "key2", "model2", true⟩] none).1 _ rfl).1,
   (c6_provider_resolution [] (some "g")).2.1 rfl "g" rfl⟩

/-- C7 counterexample: on the batch path, when extraction returns no website,
the product's domain is retained rather than overwritten with the newly
extracted (absent) value, so "title, site domain, stock status, and
last-checked are all overwritten with the newly extracted values" fails. -/
theorem c7_domain_retained_counterexample :
    (applyRefresh ⟨1, 1, "u", some "T", some "old.example", some "In Stock", some 1, 0⟩
        ⟨"T2", 5, "USD", "Out of Stock", none⟩ 9).domain = some "old.example" ∧
    (⟨"T2", 5, "USD", "Out of Stock", none⟩ : StructuredFields).website = none ∧
    (applyRefresh ⟨1, 1, "u", some "T", some "old.example", some "In Stock", some 1, 0⟩
        ⟨"T2", 5, "USD", "Out of Stock", none⟩ 9).domain
      ≠ (⟨"T2", 5, "USD", "Out of Stock", none⟩ : StructuredFields).website := by
  refine ⟨rfl, rfl, by decide⟩

/-- C7 amended: on every successful refresh — batch (`applyRefresh`) or
on-demand (`applyFetch` with `fetchDomain`) — title, stock status and
last-checked are overwritten with the newly extracted values and identity,
URL, owner and creation timestamp are unchanged; the site domain is
overwritten with the extracted website only when it is non-empty, and
otherwise the batch path retains the previous domain while the on-demand path
falls back to the URL's host (or null). -/
theorem c7_refresh_overwrites (p : Product) (s : StructuredFields) (now : Nat)
    (netloc : Option String) :
    ((applyRefresh p s now).id = p.id ∧
     (applyRefresh p s now).url = p.url ∧
     (applyRefresh p s now).user_id = p.user_id ∧
     (applyRefresh p s now).created_at = p.created_at ∧
     (applyRefresh p s now).title = some s.title ∧
     (applyRefresh p s now).stock_status = some s.stock_status ∧
     (applyRefresh p s now).last_checked = some now ∧
     (∀ w, s.website = some w → w.isEmpty = false → (applyRefresh p s now).domain = some w) ∧
     ((s.website = none ∨ s.website = some "") → (applyRefresh p s now).domain = p.domain)) ∧
    ((applyFetch p s (fetchDomain s netloc) now).id = p.id ∧
     (applyFetch p s (fetchDomain s netloc) now).url = p.url ∧
     (applyFetch p s (fetchDomain s netloc) now).user_id = p.user_id ∧
     (applyFetch p s (fetchDomain s netloc) now).created_at = p.created_at ∧
     (applyFetch p s (fetchDomain s netloc) now).title = some s.title ∧
     (applyFetch p s (fetchDomain s netloc) now).stock_status = some s.stock_status ∧
     (applyFetch p s (fetchDomain s netloc) now).last_checked = some now ∧
     (applyFetch p s (fetchDomain s netloc) now).domain = fetchDomain s netloc ∧
     (∀ w, s.website = some w → w.isEmpty = false → fetchDomain s netloc = some w) ∧
     ((s.website = none ∨ s.website = some "") → fetchDomain s netloc = netloc)) := by
  constructor
  · refine ⟨rfl, rfl, rfl, rfl, rfl, rfl, rfl, ?_, ?_⟩
    · intro w hw hne
      simp [applyRefresh, hw, hne]
    · have hemp : ("" : String).isEmpty = true := rfl
      rintro (hw | hw) <;> simp [applyRefresh, hw, hemp]
  · refine ⟨rfl, rfl, rfl, rfl, rfl, rfl, rfl, rfl, ?_, ?_⟩
    · intro w hw hne
      simp [fetchDomain, hw, hne]
    · have hemp : ("" : String).isEmpty = true := rfl
      rintro (hw | hw) <;> simp [fetchDomain, hw, hemp]

/-- C7 witness: the overwrite characterization applied at concrete rows, once
with a non-empty extracted website and once with an absent one. -/
theorem c7_refresh_overwrites_witness :
    (applyRefresh ⟨1, 1, "u", some "T", some "old.example", some "In Stock", some 1, 0⟩
        ⟨"T2", 5, "USD", "Out of Stock", some "new.example"⟩ 9).domain = some "new.example" ∧
    (applyRefresh ⟨1, 1, "u", some "T", some "old.example", some "In Stock", some 1, 0⟩
        ⟨"T2", 5, "USD", "Out of Stock", none⟩ 9).domain = some "old.example" ∧
    (applyRefresh ⟨1, 1, "u", some "T", some "old.example", some "In Stock", some 1, 0⟩
        ⟨"T2", 5, "USD", "Out of Stock", some "new.example"⟩ 9).url = "u" :=
  ⟨((c7_refresh_overwrites ⟨1, 1, "u", some "T", some "old.example", some "In Stock", some 1, 0⟩
      ⟨"T2", 5, "USD", "Out of Stock", some "new.example"⟩ 9 none).1.2.2.2.2.2.2.2.1
      "new.example" rfl rfl),
   ((c7_refresh_overwrites ⟨1, 1, "u", some "T", some "old.example", some "In Stock", some 1, 0⟩
      ⟨"T2", 5, "USD", "Out of Stock", none⟩ 9 none).1.2.2.2.2.2.2.2.2 (Or.inl rfl)),
   ((c7_refresh_overwrites ⟨1, 1, "u", some "T", some "old.example", some "In Stock", some 1, 0⟩
      ⟨"T2", 5, "USD", "Out of Stock", some "new.example"⟩ 9 none).1.2.1)⟩

/-- C8 counterexample: a syntactically valid but empty JSON object — every
required field missing — does not make the adapter fail with a
malformed-extraction error; the dispatch fills every missing field with a
default and returns structured fields. -/
theorem c8_missing_fields_counterexample :
    groqExtract (fun l => if l = "\x7b\x7d".data then some [] else none) "\x7b\x7d".data
      = .ok ⟨"Unknown Product", 0, "USD", "Unknown", none⟩ := by
  decide

/-- C8 amended: non-JSON provider text triggers exactly one re-parse after
stripping wrapping markdown code fences, and failure of that single retry is
the malformed-extraction error; a parsed JSON object with missing fields is
not an error — each missing field is defaulted (title "Unknown Product",
price 0, currency "USD", stock "Unknown") — while a stock-status value
outside the closed set fails schema validation at the dispatch layer. -/
theorem c8_malformed_response_handling (jsonLoads : List Char → Option JObj)
    (content : List Char) :
    (jsonLoads content = none → jsonLoads (stripCodeFences content) = none →
      groqExtract jsonLoads content
        = .error (.malformed "Failed to extract product info with Groq")) ∧
    (∀ r, jsonLoads content = none → jsonLoads (stripCodeFences content) = some r →
      groqExtract jsonLoads content = coerceSchema r) ∧
    (∀ r, jsonLoads content = some r → groqExtract jsonLoads content = coerceSchema r) ∧
    coerceSchema [] = .ok ⟨"Unknown Product", 0, "USD", "Unknown", none⟩ ∧
    coerceSchema
        [("title", .str "X"), ("price", .num 5), ("currency", .str "USD"),
         ("stock_status", .str "Maybe")]
      = .error .validation := by
  refine ⟨?_, ?_, ?_, by decide, by decide⟩
  · intro h1 h2
    simp [groqExtract, parseGroqResponse, h1, h2]
  · intro r h1 h2
    simp [groqExtract, parseGroqResponse, h1, h2]
  · intro r h1
    simp [groqExtract, parseGroqResponse, h1]

/-- C8 witness: the amended behaviour at concrete provider responses — a
fenced JSON payload recovered by the single retry, and a doubly unparsable
response failing with the malformed error. -/
theorem c8_malformed_response_handling_witness :
    groqExtract
        (fun l => if l = "\x7b\x7d".data then some [] else none)
        "```json\n\x7b\x7d\n```".data
      = .ok ⟨"Unknown Product", 0, "USD", "Unknown", none⟩ ∧
    groqExtract (fun _ => none) "not json at all".data
      = .error (.malformed "Failed to extract product info with Groq") := by
  constructor
  · have h := (c8_malformed_response_handling
      (fun l => if l = "\x7b\x7d".data then some [] else none)
      "```json\n\x7b\x7d\n```".data).2.1 [] (by decide) (by decide)
    rw [h]
    decide
  · exact (c8_malformed_response_handling (fun _ => none)
      "not json at all".data).1 rfl rfl

/-- `minByPrice` returns its accumulator or a strictly cheaper list element
(Python's `min` only replaces the running best on strict comparison). -/
theorem minByPrice_acc_or_mem (l : List PriceHistory) :
    ∀ acc, minByPrice acc l = acc ∨
      (minByPrice acc l ∈ l ∧ (minByPrice acc l).price < acc.price) := by
  induction l with
  | nil => exact fun _ => Or.inl rfl
  | cons x rest ih =>
    intro acc
    simp only [minByPrice]
    by_cases hc : x.price < acc.price
    · rw [if_pos hc]
      rcases ih x with h | ⟨hm, hp⟩
      · exact Or.inr ⟨by rw [h]; exact List.mem_cons_self x rest, by rw [h]; exact hc⟩
      · exact Or.inr ⟨List.mem_cons_of_mem x hm, lt_trans hp hc⟩
    · rw [if_neg hc]
      rcases ih acc with h | ⟨hm, hp⟩
      · exact Or.inl h
      · exact Or.inr ⟨List.mem_cons_of_mem x hm, hp⟩

/-- `minByPrice` is a lower bound of the accumulator and of the list. -/
theorem minByPrice_le (l : List PriceHistory) :
    ∀ acc, (minByPrice acc l).price ≤ acc.price ∧
      ∀ e ∈ l, (minByPrice acc l).price ≤ e.price := by
  induction l with
  | nil => exact fun _ => ⟨le_refl _, by simp⟩
  | cons x rest ih =>
    intro acc
    simp only [minByPrice]
    by_cases hc : x.price < acc.price
    · rw [if_pos hc]
      obtain ⟨h1, h2⟩ := ih x
      refine ⟨le_of_lt (lt_of_le_of_lt h1 hc), ?_⟩
      intro e he
      rcases List.mem_cons.mp he with rfl | he'
      · exact h1
      · exact h2 e he'
    · rw [if_neg hc]
      obtain ⟨h1, h2⟩ := ih acc
      refine ⟨h1, ?_⟩
      intro e he
      rcases List.mem_cons.mp he with rfl | he'
      · exact le_trans h1 (not_lt.mp hc)
      · exact h2 e he'

/-- On a timestamp-sorted run, `minByPrice` lands on the earliest-timestamped
element among those sharing the minimal price, because Python's `min` keeps
the first of equal minima. -/
theorem minByPrice_earliest (l : List PriceHistory) :
    ∀ acc, List.Pairwise (fun a b => a.timestamp ≤ b.timestamp) (acc :: l) →
      ∀ e ∈ acc :: l, e.price = (minByPrice acc l).price →
        (minByPrice acc l).timestamp ≤ e.timestamp := by
  induction l with
  | nil =>
    intro acc _ e he hp
    rcases List.mem_singleton.mp he with rfl
    exact le_refl _
  | cons x rest ih =>
    intro acc hpw e he hp
    have hax : acc.timestamp ≤ x.timestamp :=
      (List.pairwise_cons.mp hpw).1 x (List.mem_cons_self x rest)
    have har : ∀ y ∈ rest, acc.timestamp ≤ y.timestamp := fun y hy =>
      (List.pairwise_cons.mp hpw).1 y (List.mem_cons_of_mem x hy)
    have hxrest : List.Pairwise (fun a b => a.timestamp ≤ b.timestamp) (x :: rest) :=
      (List.pairwise_cons.mp hpw).2
    have hrest : List.Pairwise (fun a b => a.timestamp ≤ b.timestamp) rest :=
      (List.pairwise_cons.mp hxrest).2
    simp only [minByPrice] at hp ⊢
    by_cases hc : x.price < acc.price
    · rw [if_pos hc] at hp ⊢
      rcases List.mem_cons.mp he with rfl | he'
      · exfalso
        have hle := (minByPrice_le rest x).1
        exact absurd hp.symm (ne_of_lt (lt_of_le_of_lt hle hc))
      · exact ih x hxrest e he' hp
    · rw [if_neg hc] at hp ⊢
      have hacc' : List.Pairwise (fun a b => a.timestamp ≤ b.timestamp) (acc :: rest) :=
        List.pairwise_cons.mpr ⟨har, hrest⟩
      rcases List.mem_cons.mp he with rfl | he'
      · exact ih e hacc' e (List.mem_cons_self _ _) hp
      · rcases List.mem_cons.mp he' with rfl | he''
        · rcases minByPrice_acc_or_mem rest acc with hr | ⟨_, hlt⟩
          · rw [hr]; exact hax
          · exfalso
            have h2 : acc.price ≤ (minByPrice acc rest).price := by
              rw [← hp]; exact not_lt.mp hc
            exact absurd (lt_of_le_of_lt h2 hlt) (lt_irrefl _)
        · exact ih acc hacc' e (List.mem_cons_of_mem _ he'') hp

/-- C3: for a product whose observation list (ordered by ascending timestamp)
has length at least 2 — written `l ++ [a, b]` — the derived view's latest is
the last observation `b`, its previous is the second-to-last observation `a`,
and its lowest is an observation of minimal price whose timestamp is least
among the minimal-price observations; for exactly one observation, previous
and lowest are absent while latest is that single observation. -/
theorem c3_derived_view (p : Product) (entries : List PriceHistory)
    (hsorted : List.Pairwise (fun a b => a.timestamp ≤ b.timestamp) entries) :
    (∀ e, entries = [e] →
      ∃ v, serializeEntries p entries = some v ∧
        v.price = e.price ∧ v.currency = e.currency ∧
        v.previous_price = none ∧ v.previous_currency = none ∧
        v.lowest_price = none ∧ v.lowest_currency = none ∧ v.lowest_timestamp = none) ∧
    (∀ l a b, entries = l ++ [a, b] →
      ∃ v, serializeEntries p entries = some v ∧
        v.price = b.price ∧ v.currency = b.currency ∧
        v.previous_price = some a.price ∧ v.previous_currency = some a.currency ∧
        ∃ low, low ∈ entries ∧
          v.lowest_price = some low.price ∧ v.lowest_currency = some low.currency ∧
          v.lowest_timestamp = some low.timestamp ∧
          (∀ e ∈ entries, low.price ≤ e.price) ∧
          (∀ e ∈ entries, e.price = low.price → low.timestamp ≤ e.timestamp)) := by
  constructor
  · rintro e rfl
    have hser : serializeEntries p [e] = some {
        id := p.id
        url := p.url
        title := p.title
        price := e.price
        currency := e.currency
        stock_status := orFallback p.stock_status "Unknown"
        website := p.domain
        last_checked := p.last_checked.getD e.timestamp
        previous_price := none
        previous_currency := none
        lowest_price := none
        lowest_currency := none
        lowest_timestamp := none } := by
      simp [serializeEntries]
    exact ⟨_, hser, rfl, rfl, rfl, rfl, rfl, rfl, rfl⟩
  · rintro l a b rfl
    obtain ⟨e0, rest, he⟩ : ∃ e0 rest, l ++ [a, b] = e0 :: rest := by
      cases l with
      | nil => exact ⟨a, [b], rfl⟩
      | cons x l' => exact ⟨x, l' ++ [a, b], rfl⟩
    rw [he] at hsorted ⊢
    have hlast : (e0 :: rest).getLast? = some b := by
      rw [← he, show l ++ [a, b] = (l ++ [a]) ++ [b] by simp]
      exact List.getLast?_concat _
    have hlen : (e0 :: rest).length = l.length + 2 := by
      rw [← he]; simp
    have hge : 2 ≤ (e0 :: rest).length := by omega
    have hprev : (e0 :: rest).get? ((e0 :: rest).length - 2) = some a := by
      rw [hlen, ← he]
      have h : (l ++ [a, b])[l.length]? = [a, b][l.length - l.length]? :=
        List.getElem?_append_right (le_refl _)
      simpa [List.get?_eq_getElem?, Nat.add_sub_cancel] using h
    have hser : serializeEntries p (e0 :: rest) = some {
        id := p.id
        url := p.url
        title := p.title
        price := b.price
        currency := b.currency
        stock_status := orFallback p.stock_status "Unknown"
        website := p.domain
        last_checked := p.last_checked.getD b.timestamp
        previous_price := some a.price
        previous_currency := some a.currency
        lowest_price := some (minByPrice e0 rest).price
        lowest_currency := some (minByPrice e0 rest).currency
        lowest_timestamp := some (minByPrice e0 rest).timestamp } := by
      simp only [serializeEntries, hlast, ge_iff_le, if_pos hge, hprev, Option.map_some']
    refine ⟨_, hser, rfl, rfl, rfl, rfl, minByPrice e0 rest, ?_, rfl, rfl, rfl, ?_, ?_⟩
    · rcases minByPrice_acc_or_mem rest e0 with h | ⟨h, _⟩
      · rw [h]; exact List.mem_cons_self _ _
      · exact List.mem_cons_of_mem _ h
    · intro e hmem
      rcases List.mem_cons.mp hmem with rfl | hmem'
      · exact (minByPrice_le rest e).1
      · exact (minByPrice_le rest e0).2 e hmem'
    · exact fun e hmem hp => minByPrice_earliest rest e0 hsorted e hmem hp

/-- C3 witness: the derived-view theorem at the spec's concrete scenario —
observations (100, t=1), (80, t=2), (90, t=3) give latest 90, previous 80
and a minimal-price, earliest-timestamp lowest. -/
theorem c3_derived_view_witness :
    ∃ v, serializeEntries
        ⟨7, 1, "https://example.com/x", some "X", some "example.com", some "In Stock", some 3, 0⟩
        [⟨1, 7, 100, "USD", 1⟩, ⟨2, 7, 80, "USD", 2⟩, ⟨3, 7, 90, "USD", 3⟩] = some v ∧
      v.price = (⟨3, 7, 90, "USD", 3⟩ : PriceHistory).price ∧
      v.currency = (⟨3, 7, 90, "USD", 3⟩ : PriceHistory).currency ∧
      v.previous_price = some (⟨2, 7, 80, "USD", 2⟩ : PriceHistory).price ∧
      v.previous_currency = some (⟨2, 7, 80, "USD", 2⟩ : PriceHistory).currency ∧
      ∃ low,
        low ∈ [(⟨1, 7, 100, "USD", 1⟩ : PriceHistory), ⟨2, 7, 80, "USD", 2⟩, ⟨3, 7, 90, "USD", 3⟩] ∧
        v.lowest_price = some low.price ∧ v.lowest_currency = some low.currency ∧
        v.lowest_timestamp = some low.timestamp ∧
        (∀ e ∈ [(⟨1, 7, 100, "USD", 1⟩ : PriceHistory), ⟨2, 7, 80, "USD", 2⟩, ⟨3, 7, 90, "USD", 3⟩],
          low.price ≤ e.price) ∧
        (∀ e ∈ [(⟨1, 7, 100, "USD", 1⟩ : PriceHistory), ⟨2, 7, 80, "USD", 2⟩, ⟨3, 7, 90, "USD", 3⟩],
          e.price = low.price → low.timestamp ≤ e.timestamp) :=
  (c3_derived_view
    ⟨7, 1, "https://example.com/x", some "X", some "example.com", some "In Stock", some 3, 0⟩
    [⟨1, 7, 100, "USD", 1⟩, ⟨2, 7, 80, "USD", 2⟩, ⟨3, 7, 90, "USD", 3⟩] (by decide)).2
    [⟨1, 7, 100, "USD", 1⟩] ⟨2, 7, 80, "USD", 2⟩ ⟨3, 7, 90, "USD", 3⟩ rfl

/-- Insertion never produces an empty list. -/
theorem insertByTs_ne_nil (e : PriceHistory) (l : List PriceHistory) :
    insertByTs e l ≠ [] := by
  cases l with
  | nil => simp [insertByTs]
  | cons x xs =>
    simp only [insertByTs]
    by_cases h : x.timestamp ≤ e.timestamp
    · rw [if_pos h]; simp
    · rw [if_neg h]; simp

/-- The sorted history is empty exactly when the stored history is. -/
theorem sortByTs_eq_nil_iff (l : List PriceHistory) : sortByTs l = [] ↔ l = [] := by
  cases l with
  | nil => simp [sortByTs]
  | cons e rest =>
    simp only [sortByTs]
    exact ⟨fun h => absurd h (insertByTs_ne_nil e (sortByTs rest)), fun h => by cases h⟩

/-- A serialized view always carries the product's id. -/
theorem serializeEntries_id (p : Product) (entries : List PriceHistory)
    (v : TrackedProductSchema) (h : serializeEntries p entries = some v) : v.id = p.id := by
  cases hl : entries.getLast? with
  | none =>
    simp only [serializeEntries, hl] at h
    exact Option.noConfusion h
  | some latest =>
    simp only [serializeEntries, hl, Option.some_inj] at h
    rw [← h]

/-- A nonempty history always serializes. -/
theorem serializeEntries_isSome (p : Product) (entries : List PriceHistory)
    (h : entries ≠ []) : ∃ v, serializeEntries p entries = some v := by
  have hs := List.getLast?_isSome.mpr h
  cases hl : entries.getLast? with
  | none => rw [hl] at hs; cases hs
  | some latest =>
    have hsome : (serializeEntries p entries).isSome = true := by
      simp only [serializeEntries, hl, Option.isSome_some]
    exact Option.isSome_iff_exists.mp hsome

/-- C5: listing products for an owner returns a view for every product of
that owner with at least one observation, and silently excludes — by
catching the serializer's error, not by raising — every product of that owner
with zero observations (no view with its id appears). -/
theorem c5_list_for_owner (db : DB) (uid : Nat) (p : Product)
    (hmem : p ∈ db.products) (howner : p.user_id = uid) :
    (obsFor db p.id ≠ [] → ∃ v ∈ list_products db uid, v.id = p.id) ∧
    (obsFor db p.id = [] → ∀ v ∈ list_products db uid, v.id ≠ p.id) := by
  constructor
  · intro hobs
    have hsorted : sortByTs (obsFor db p.id) ≠ [] := by
      intro h
      exact hobs ((sortByTs_eq_nil_iff _).mp h)
    obtain ⟨v, hv⟩ := serializeEntries_isSome p (sortByTs (obsFor db p.id)) hsorted
    refine ⟨v, ?_, serializeEntries_id _ _ _ hv⟩
    apply List.mem_filterMap.mpr
    refine ⟨p, ?_, hv⟩
    apply List.mem_filter.mpr
    exact ⟨hmem, by simp [howner]⟩
  · intro hobs v hv hvid
    obtain ⟨q, hq, hser⟩ := List.mem_filterMap.mp hv
    have hqid : v.id = q.id := serializeEntries_id _ _ _ hser
    have hqp : q.id = p.id := by rw [← hqid, hvid]
    have hnil : sortByTs (obsFor db q.id) = [] := by
      rw [hqp]
      exact (sortByTs_eq_nil_iff _).mpr hobs
    rw [_serialize_tracked_product, hnil] at hser
    simp [serializeEntries] at hser

/-- C5 witness: with one observed and one unobserved product of the same
owner, the listing includes the first and excludes the second. -/
theorem c5_list_for_owner_witness :
    (∃ v ∈ list_products
        ⟨[⟨1, 1, "a", none, none, none, none, 0⟩, ⟨2, 1, "b", none, none, none, none, 0⟩],
         [⟨1, 1, 10, "USD", 1⟩]⟩ 1,
      v.id = (⟨1, 1, "a", none, none, none, none, 0⟩ : Product).id) ∧
    (∀ v ∈ list_products
        ⟨[⟨1, 1, "a", none, none, none, none, 0⟩, ⟨2, 1, "b", none, none, none, none, 0⟩],
         [⟨1, 1, 10, "USD", 1⟩]⟩ 1,
      v.id ≠ (⟨2, 1, "b", none, none, none, none, 0⟩ : Product).id) :=
  ⟨(c5_list_for_owner
      ⟨[⟨1, 1, "a", none, none, none, none, 0⟩, ⟨2, 1, "b", none, none, none, none, 0⟩],
       [⟨1, 1, 10, "USD", 1⟩]⟩ 1 ⟨1, 1, "a", none, none, none, none, 0⟩
      (by decide) rfl).1 (by decide),
   (c5_list_for_owner
      ⟨[⟨1, 1, "a", none, none, none, none, 0⟩, ⟨2, 1, "b", none, none, none, none, 0⟩],
       [⟨1, 1, 10, "USD", 1⟩]⟩ 1 ⟨2, 1, "b", none, none, none, none, 0⟩
      (by decide) rfl).2 (by decide)⟩

/-- Splitting never yields an empty list of pieces. -/
theorem splitNl_ne_nil (l : List Char) : splitNl l ≠ [] := by
  cases l with
  | nil => simp [splitNl]
  | cons c rest =>
    simp only [splitNl]
    by_cases hc : c = '\n'
    · rw [if_pos hc]; simp
    · rw [if_neg hc]
      cases hq : splitNl rest with
      | nil => simp
      | cons q qs => simp

/-- Every piece produced by `splitNl` is free of newlines. -/
theorem mem_splitNl_no_nl (l : List Char) : ∀ p ∈ splitNl l, '\n' ∉ p := by
  induction l with
  | nil =>
    intro p hp
    simp only [splitNl, List.mem_singleton] at hp
    simp [hp]
  | cons c rest ih =>
    intro p hp
    by_cases hc : c = '\n'
    · simp only [splitNl, if_pos hc] at hp
      rcases List.mem_cons.mp hp with rfl | hps
      · simp
      · exact ih p hps
    · simp only [splitNl, if_neg hc] at hp
      cases hq : splitNl rest with
      | nil => exact absurd hq (splitNl_ne_nil rest)
      | cons q qs =>
        rw [hq] at hp
        rcases List.mem_cons.mp hp with rfl | hps
        · intro hn
          rcases List.mem_cons.mp hn with h1 | h2
          · exact hc h1.symm
          · exact ih q (by rw [hq]; exact List.mem_cons_self q qs) h2
        · exact ih p (by rw [hq]; exact List.mem_cons_of_mem q hps)

/-- A newline right after a newline-free prefix splits the prefix off. -/
theorem splitNl_append_nl (l rest : List Char) (h : '\n' ∉ l) :
    splitNl (l ++ '\n' :: rest) = l :: splitNl rest := by
  induction l with
  | nil => simp [splitNl]
  | cons c l' ih =>
    have hc : c ≠ '\n' := fun hh => h (hh ▸ List.mem_cons_self c l')
    have h' : '\n' ∉ l' := fun hh => h (List.mem_cons_of_mem c hh)
    show splitNl (c :: (l' ++ '\n' :: rest)) = (c :: l') :: splitNl rest
    simp only [splitNl, if_neg hc]
    rw [ih h']

/-- A newline-free text is a single piece. -/
theorem splitNl_no_nl (l : List Char) (h : '\n' ∉ l) : splitNl l = [l] := by
  induction l with
  | nil => rfl
  | cons c l' ih =>
    have hc : c ≠ '\n' := fun hh => h (hh ▸ List.mem_cons_self c l')
    have h' : '\n' ∉ l' := fun hh => h (List.mem_cons_of_mem c hh)
    simp only [splitNl, if_neg hc, ih h']

/-- A nonempty newline-free text is its own single line. -/
theorem splitlinesL_no_nl (l : List Char) (hn : '\n' ∉ l) (hne : l ≠ []) :
    splitlinesL l = [l] := by
  simp only [splitlinesL, splitNl_no_nl l hn]
  rw [if_neg (by simp [hne])]

/-- `splitlinesL` peels off a newline-free line before a newline. -/
theorem splitlinesL_append_nl (l rest : List Char) (h : '\n' ∉ l) :
    splitlinesL (l ++ '\n' :: rest) = l :: splitlinesL rest := by
  simp only [splitlinesL, splitNl_append_nl l rest h]
  cases hq : splitNl rest with
  | nil => exact absurd hq (splitNl_ne_nil rest)
  | cons q qs =>
    by_cases hc : (q :: qs).getLast? = some []
    · rw [List.getLast?_cons_cons, if_pos hc, if_pos hc]
      rfl
    · rw [List.getLast?_cons_cons, if_neg hc, if_neg hc]

/-- Joining nonempty newline-free lines and splitting again is the identity —
the inverse of the normalizer's rejoin step. -/
theorem splitlinesL_joinNl (ls : List (List Char)) (h1 : ∀ l ∈ ls, '\n' ∉ l)
    (h2 : ∀ l ∈ ls, l ≠ []) : splitlinesL (joinNl ls) = ls := by
  induction ls with
  | nil => rfl
  | cons l ls' ih =>
    cases ls' with
    | nil =>
      simp only [joinNl]
      exact splitlinesL_no_nl l (h1 l (by simp)) (h2 l (by simp))
    | cons l2 ls'' =>
      have hjoin : joinNl (l :: l2 :: ls'') = l ++ '\n' :: joinNl (l2 :: ls'') := rfl
      rw [hjoin, splitlinesL_append_nl l _ (h1 l (by simp))]
      congr 1
      exact ih (fun x hx => h1 x (List.mem_cons_of_mem l hx))
        (fun x hx => h2 x (List.mem_cons_of_mem l hx))

/-- The head surviving a `dropWhile` fails the predicate. -/
theorem dropWhile_head_false (p : Char → Bool) (l : List Char) :
    ∀ c rs, l.dropWhile p = c :: rs → p c = false := by
  induction l with
  | nil => intro c rs h; cases h
  | cons x xs ih =>
    intro c rs h
    by_cases hx : p x
    · rw [List.dropWhile_cons_of_pos hx] at h
      exact ih c rs h
    · rw [List.dropWhile_cons_of_neg hx] at h
      cases h
      exact Bool.eq_false_iff.mpr hx

/-- A nonempty stripped line contains a non-whitespace character. -/
theorem trimChars_any_not_ws (l : List Char) (h : trimChars l ≠ []) :
    (trimChars l).any (fun c => !wsChar c) = true := by
  unfold trimChars at h ⊢
  cases hd : (l.dropWhile wsChar).reverse.dropWhile wsChar with
  | nil =>
    rw [hd] at h
    simp at h
  | cons c rs =>
    have hc : wsChar c = false := dropWhile_head_false wsChar _ c rs hd
    exact List.any_eq_true.mpr ⟨c, by simp, by simp [hc]⟩

/-- Stripping only removes characters. -/
theorem mem_trimChars (l : List Char) (c : Char) (h : c ∈ trimChars l) : c ∈ l := by
  unfold trimChars at h
  have h1 : c ∈ (l.dropWhile wsChar).reverse.dropWhile wsChar := List.mem_reverse.mp h
  have h2 : c ∈ (l.dropWhile wsChar).reverse := List.Sublist.mem h1 (List.dropWhile_sublist _)
  have h3 : c ∈ l.dropWhile wsChar := List.mem_reverse.mp h2
  exact List.Sublist.mem h3 (List.dropWhile_sublist _)

/-- Lines are a subfamily of the raw split pieces. -/
theorem mem_splitlinesL (l p : List Char) (h : p ∈ splitlinesL l) : p ∈ splitNl l := by
  simp only [splitlinesL] at h
  by_cases hc : (splitNl l).getLast? = some []
  · rw [if_pos hc] at h
    exact List.Sublist.mem h (List.dropLast_sublist _)
  · rwa [if_neg hc] at h

/-- After decomposition, no element with a banned tag survives anywhere. -/
theorem decomposeBanned_clean (banned : List String) (t : HTree) :
    hasBannedElem banned (decomposeBanned banned t) = false := by
  induction t with
  | nilNode => rfl
  | textNode s next ih => simp [decomposeBanned, hasBannedElem, ih]
  | elemNode tag children next ihc ihn =>
    by_cases h : tag ∈ banned
    · simp [decomposeBanned, h, ihn]
    · simp [decomposeBanned, hasBannedElem, h, ihc, ihn]

/-- The normalizer's output never exceeds its character budget. -/
theorem clean_html_length_le (m : Nat) (doc : HTree) : (_clean_html m doc).length ≤ m := by
  unfold _clean_html
  by_cases h : (cleanedText doc).length > m
  · rw [if_pos h, List.length_take]
    exact min_le_left _ _
  · rw [if_neg h]
    omega

/-- The spec's scenario page,
`<html><script>bad()</script><body><nav>Home</nav><p>Widget $9.99</p></body></html>`,
as the DOM forest the HTML parser produces. -/
def widgetPage : HTree :=
  .elemNode "html"
    (.elemNode "script" (.textNode "bad()".data .nilNode)
      (.elemNode "body"
        (.elemNode "nav" (.textNode "Home".data .nilNode)
          (.elemNode "p" (.textNode "Widget $9.99".data .nilNode) .nilNode))
        .nilNode))
    .nilNode

/-- C9: the normalizer removes every script/style/noscript/footer/nav element
with its entire subtree, every emitted line contains a non-whitespace
character (blank and whitespace-only lines are dropped), the final output is
hard-truncated to the configured budget (default 15,000); on the scenario
page the output is exactly "Widget $9.99", containing "Widget $9.99" and
neither "bad()" nor "Home". -/
theorem c9_normalizer (doc : HTree) :
    hasBannedElem BANNED_TAGS (decomposeBanned BANNED_TAGS doc) = false ∧
    (∀ l ∈ splitlinesL (cleanedText doc), l.any (fun c => !wsChar c) = true) ∧
    (∀ m : Nat, (_clean_html m doc).length ≤ m) ∧
    MAX_CHARS = 15000 ∧
    _clean_html MAX_CHARS widgetPage = "Widget $9.99".data ∧
    "Widget $9.99".data <:+: _clean_html MAX_CHARS widgetPage ∧
    ¬ ("bad()".data <:+: _clean_html MAX_CHARS widgetPage) ∧
    ¬ ("Home".data <:+: _clean_html MAX_CHARS widgetPage) := by
  refine ⟨decomposeBanned_clean _ _, ?_, fun m => clean_html_length_le m doc, rfl,
    by decide, by decide, by decide, by decide⟩
  intro l hl
  set text := joinNl (collectTexts (decomposeBanned BANNED_TAGS doc)) with htext
  set kept := ((splitlinesL text).map trimChars).filter (fun x => !x.isEmpty) with hkept
  have h1 : ∀ x ∈ kept, '\n' ∉ x := by
    intro x hx hn
    obtain ⟨hx1, _⟩ := List.mem_filter.mp hx
    obtain ⟨p, hp, hpx⟩ := List.mem_map.mp hx1
    rw [← hpx] at hn
    exact mem_splitNl_no_nl text p (mem_splitlinesL text p hp) (mem_trimChars p '\n' hn)
  have h2 : ∀ x ∈ kept, x ≠ [] := by
    intro x hx
    have := (List.mem_filter.mp hx).2
    simpa using this
  have heq : splitlinesL (cleanedText doc) = kept := by
    rw [show cleanedText doc = joinNl kept from rfl]
    exact splitlinesL_joinNl kept h1 h2
  rw [heq] at hl
  obtain ⟨hx1, _⟩ := List.mem_filter.mp hl
  obtain ⟨p, hp, hpx⟩ := List.mem_map.mp hx1
  rw [← hpx]
  apply trimChars_any_not_ws
  rw [hpx]
  exact h2 l hl

/-- C9 witness: the no-blank-line property applied at the scenario page and
its single output line. -/
theorem c9_normalizer_witness :
    "Widget $9.99".data ∈ splitlinesL (cleanedText widgetPage) ∧
    ("Widget $9.99".data).any (fun c => !wsChar c) = true :=
  ⟨by decide, (c9_normalizer widgetPage).2.1 "Widget $9.99".data (by decide)⟩

/-- C2: in the on-demand registration path, a render failure surfaces as a
typed 400-style error and an extraction failure as a typed 502-style error,
each with the store untouched; an injected store failure also leaves the
store untouched; the committed store never changes without a new observation
being appended; and any change is the atomic application of the buffered
pair (product upsert, observation insert) by the single commit. -/
theorem c2_on_demand_atomicity (db : DB) (uid : Nat) (url : String)
    (render : Except String String) (extractRes : String → Except String StructuredFields)
    (netloc : Option String) (now : Nat) (commitOk : Bool) :
    (∀ msg, render = .error msg →
      fetch_product_page db uid url render extractRes netloc now commitOk
        = (.error (.renderFailed msg), db)) ∧
    (∀ page msg, render = .ok page → extractRes page = .error msg →
      fetch_product_page db uid url render extractRes netloc now commitOk
        = (.error (.extractFailed msg), db)) ∧
    (commitOk = false →
      (fetch_product_page db uid url render extractRes netloc now commitOk).2 = db) ∧
    ((fetch_product_page db uid url render extractRes netloc now commitOk).2.history
        = db.history →
      (fetch_product_page db uid url render extractRes netloc now commitOk).2 = db) ∧
    ((fetch_product_page db uid url render extractRes netloc now commitOk).2 = db ∨
      ∃ w : PendingWrites,
        (fetch_product_page db uid url render extractRes netloc now commitOk).2
          = commitWrites db w ∧
        w.obs.product_id = w.productRow.id ∧ w.obs.timestamp = now ∧
        w.productRow.user_id = uid ∧ w.productRow.url = url) := by
  cases hr : render with
  | error msg0 =>
    have hfe : fetch_product_page db uid url (.error msg0) extractRes netloc now commitOk
        = (.error (.renderFailed msg0), db) := by
      simp only [fetch_product_page]
    refine ⟨?_, ?_, ?_, ?_, ?_⟩
    · intro msg hmsg
      injection hmsg with h
      rw [← h]
      exact hfe
    · intro page msg hpage _
      exact Except.noConfusion hpage
    · intro _
      rw [hfe]
    · intro _
      rw [hfe]
    · left
      rw [hfe]
  | ok page0 =>
    cases hx : extractRes page0 with
    | error msg0 =>
      have hfe : fetch_product_page db uid url (.ok page0) extractRes netloc now commitOk
          = (.error (.extractFailed msg0), db) := by
        simp only [fetch_product_page, hx]
      refine ⟨?_, ?_, ?_, ?_, ?_⟩
      · intro msg hmsg
        exact Except.noConfusion hmsg
      · intro page msg hpage hext
        injection hpage with hp
        rw [← hp, hx] at hext
        injection hext with hm
        rw [← hm]
        exact hfe
      · intro _
        rw [hfe]
      · intro _
        rw [hfe]
      · left
        rw [hfe]
    | ok s =>
      cases commitOk with
      | false =>
        have hfe : (fetch_product_page db uid url (.ok page0) extractRes netloc now false).2
            = db := by
          simp only [fetch_product_page, hx, Bool.false_eq_true, if_false]
        refine ⟨?_, ?_, ?_, ?_, ?_⟩
        · intro msg hmsg
          exact Except.noConfusion hmsg
        · intro page msg hpage hext
          injection hpage with hp
          rw [← hp, hx] at hext
          exact Except.noConfusion hext
        · intro _
          exact hfe
        · intro _
          exact hfe
        · left
          exact hfe
      | true =>
        cases hfind : db.products.find? (fun p => p.url == url && p.user_id == uid) with
        | some p =>
          have hbeq := List.find?_some hfind
          rw [Bool.and_eq_true] at hbeq
          have huser : p.user_id = uid := by
            have := hbeq.2
            exact eq_of_beq this
          have hurl : p.url = url := by
            have := hbeq.1
            exact eq_of_beq this
          have hfe : (fetch_product_page db uid url (.ok page0) extractRes netloc now true).2
              = commitWrites db
                  ⟨applyFetch p s (fetchDomain s netloc) now, false,
                   ⟨db.history.length + 1, (applyFetch p s (fetchDomain s netloc) now).id,
                    s.price, s.currency, now⟩⟩ := by
            simp only [fetch_product_page, hx, hfind, if_true]
          refine ⟨?_, ?_, ?_, ?_, ?_⟩
          · intro msg hmsg
            exact Except.noConfusion hmsg
          · intro page msg hpage hext
            injection hpage with hp
            rw [← hp, hx] at hext
            exact Except.noConfusion hext
          · intro hcf
            exact Bool.noConfusion hcf
          · intro hh
            rw [hfe] at hh
            simp only [commitWrites] at hh
            have := congrArg List.length hh
            simp at this
          · right
            exact ⟨_, hfe, rfl, rfl, huser, hurl⟩
        | none =>
          have hfe : (fetch_product_page db uid url (.ok page0) extractRes netloc now true).2
              = commitWrites db
                  ⟨applyFetch ⟨nextProductId db, uid, url, none, none, none, none, now⟩ s
                     (fetchDomain s netloc) now, true,
                   ⟨db.history.length + 1,
                    (applyFetch ⟨nextProductId db, uid, url, none, none, none, none, now⟩ s
                      (fetchDomain s netloc) now).id,
                    s.price, s.currency, now⟩⟩ := by
            simp only [fetch_product_page, hx, hfind, if_true]
          refine ⟨?_, ?_, ?_, ?_, ?_⟩
          · intro msg hmsg
            exact Except.noConfusion hmsg
          · intro page msg hpage hext
            injection hpage with hp
            rw [← hp, hx] at hext
            exact Except.noConfusion hext
          · intro hcf
            exact Bool.noConfusion hcf
          · intro hh
            rw [hfe] at hh
            simp only [commitWrites] at hh
            have := congrArg List.length hh
            simp at this
          · right
            exact ⟨_, hfe, rfl, rfl, rfl, rfl⟩

/-- C2 witness: the atomicity theorem applied at concrete inputs — a failing
render, a failing extraction, and an injected commit failure all leave the
empty store untouched, and the no-new-observation case forces no change. -/
theorem c2_on_demand_atomicity_witness :
    fetch_product_page ⟨[], []⟩ 1 "u" (.error "boom")
        (fun _ => .ok ⟨"T", 1, "USD", "In Stock", none⟩) none 5 true
      = (.error (.renderFailed "boom"), (⟨[], []⟩ : DB)) ∧
    fetch_product_page ⟨[], []⟩ 1 "u" (.ok "page") (fun _ => .error "bad") none 5 true
      = (.error (.extractFailed "bad"), (⟨[], []⟩ : DB)) ∧
    (fetch_product_page ⟨[], []⟩ 1 "u" (.ok "page")
        (fun _ => .ok ⟨"T", 1, "USD", "In Stock", none⟩) none 5 false).2 = (⟨[], []⟩ : DB) ∧
    (fetch_product_page ⟨[], []⟩ 1 "u" (.ok "page")
        (fun _ => .ok ⟨"T", 1, "USD", "In Stock", none⟩) none 5 false).2 = (⟨[], []⟩ : DB) :=
  ⟨(c2_on_demand_atomicity ⟨[], []⟩ 1 "u" (.error "boom")
      (fun _ => .ok ⟨"T", 1, "USD", "In Stock", none⟩) none 5 true).1 "boom" rfl,
   (c2_on_demand_atomicity ⟨[], []⟩ 1 "u" (.ok "page") (fun _ => .error "bad")
      none 5 true).2.1 "page" "bad" rfl rfl,
   (c2_on_demand_atomicity ⟨[], []⟩ 1 "u" (.ok "page")
      (fun _ => .ok ⟨"T", 1, "USD", "In Stock", none⟩) none 5 false).2.2.1 rfl,
   (c2_on_demand_atomicity ⟨[], []⟩ 1 "u" (.ok "page")
      (fun _ => .ok ⟨"T", 1, "USD", "In Stock", none⟩) none 5 false).2.2.2.1 (by decide)⟩

/-- C4: calling the on-demand registration twice with the same (owner, URL),
both calls fully succeeding, yields exactly one product row for that (owner,
URL) — the second call updates the row of the first — one more product row
than before overall, and exactly two observations for the new product id
(each successful call appends one; nothing is deduplicated). -/
theorem c4_idempotent_upsert (db0 : DB) (uid : Nat) (url : String)
    (page1 page2 : String) (s1 s2 : StructuredFields) (nl1 nl2 : Option String) (t1 t2 : Nat)
    (hnone : db0.products.find? (fun p => p.url == url && p.user_id == uid) = none)
    (hfresh : ∀ p ∈ db0.products, p.id ≠ nextProductId db0)
    (hob : obsFor db0 (nextProductId db0) = []) :
    ((fetch_product_page
        (fetch_product_page db0 uid url (.ok page1) (fun _ => .ok s1) nl1 t1 true).2
        uid url (.ok page2) (fun _ => .ok s2) nl2 t2 true).2.products.filter
          (fun p => p.url == url && p.user_id == uid)).length = 1 ∧
    (fetch_product_page
        (fetch_product_page db0 uid url (.ok page1) (fun _ => .ok s1) nl1 t1 true).2
        uid url (.ok page2) (fun _ => .ok s2) nl2 t2 true).2.products.length
      = db0.products.length + 1 ∧
    (obsFor (fetch_product_page
        (fetch_product_page db0 uid url (.ok page1) (fun _ => .ok s1) nl1 t1 true).2
        uid url (.ok page2) (fun _ => .ok s2) nl2 t2 true).2 (nextProductId db0)).length
      = 2 := by
  set newRow := applyFetch ⟨nextProductId db0, uid, url, none, none, none, none, t1⟩ s1
    (fetchDomain s1 nl1) t1 with hnewRow
  set obs1 : PriceHistory :=
    ⟨db0.history.length + 1, newRow.id, s1.price, s1.currency, t1⟩ with hobs1
  have hdb1 : (fetch_product_page db0 uid url (.ok page1) (fun _ => .ok s1) nl1 t1 true).2
      = ⟨db0.products ++ [newRow], db0.history ++ [obs1]⟩ := by
    simp only [fetch_product_page, hnone, if_true, commitWrites]
  have hid : newRow.id = nextProductId db0 := rfl
  have hmatch : (newRow.url == url && newRow.user_id == uid) = true := by
    simp [hnewRow, applyFetch]
  have hfind1 : (db0.products ++ [newRow]).find?
      (fun p => p.url == url && p.user_id == uid) = some newRow := by
    rw [List.find?_append, hnone]
    simp [List.find?_cons, hmatch]
  set row2 := applyFetch newRow s2 (fetchDomain s2 nl2) t2 with hrow2
  set obs2 : PriceHistory :=
    ⟨(db0.history ++ [obs1]).length + 1, row2.id, s2.price, s2.currency, t2⟩ with hobs2
  have hdb2 : (fetch_product_page
      (fetch_product_page db0 uid url (.ok page1) (fun _ => .ok s1) nl1 t1 true).2
      uid url (.ok page2) (fun _ => .ok s2) nl2 t2 true).2
      = ⟨(db0.products ++ [newRow]).map (fun q => if q.id == newRow.id then row2 else q),
         (db0.history ++ [obs1]) ++ [obs2]⟩ := by
    rw [hdb1]
    simp only [fetch_product_page, hfind1, if_true, commitWrites]
    rfl
  have hmap : (db0.products ++ [newRow]).map (fun q => if q.id == newRow.id then row2 else q)
      = db0.products ++ [row2] := by
    rw [List.map_append]
    congr 1
    · have huntouched : ∀ q ∈ db0.products, (if q.id == newRow.id then row2 else q) = q := by
        intro q hq
        have hne := hfresh q hq
        simp [hid, hne]
      rw [List.map_congr_left huntouched, List.map_id']
    · simp
  have hfilnil : db0.products.filter (fun p => p.url == url && p.user_id == uid) = [] :=
    List.filter_eq_nil_iff.mpr (fun a ha => by
      have := List.find?_eq_none.mp hnone a ha
      simpa using this)
  have hm2 : (row2.url == url && row2.user_id == uid) = true := by
    simp [hrow2, applyFetch, hnewRow]
  refine ⟨?_, ?_, ?_⟩
  · rw [hdb2]
    simp only [hmap, List.filter_append, hfilnil]
    simp [hm2]
  · rw [hdb2]
    simp [hmap]
  · rw [hdb2]
    simp only [obsFor] at hob ⊢
    have h1 : (obs1.product_id == nextProductId db0) = true := by
      simp [hobs1, hid]
    have h2 : (obs2.product_id == nextProductId db0) = true := by
      simp [hobs2, hrow2, applyFetch, hid]
    simp [List.filter_append, hob, h1, h2]

/-- C4 witness: two successful registrations of the same URL for owner 1
against an empty store yield one matching product row and two observations. -/
theorem c4_idempotent_upsert_witness :
    ((fetch_product_page
        (fetch_product_page ⟨[], []⟩ 1 "http://x/y" (.ok "p1")
          (fun _ => .ok ⟨"W", 100, "USD", "In Stock", none⟩) (some "x") 1 true).2
        1 "http://x/y" (.ok "p2")
        (fun _ => .ok ⟨"W", 80, "USD", "In Stock", some "shop"⟩) (some "x") 2
        true).2.products.filter
          (fun p => p.url == "http://x/y" && p.user_id == 1)).length = 1 ∧
    (fetch_product_page
        (fetch_product_page ⟨[], []⟩ 1 "http://x/y" (.ok "p1")
          (fun _ => .ok ⟨"W", 100, "USD", "In Stock", none⟩) (some "x") 1 true).2
        1 "http://x/y" (.ok "p2")
        (fun _ => .ok ⟨"W", 80, "USD", "In Stock", some "shop"⟩) (some "x") 2
        true).2.products.length = (⟨[], []⟩ : DB).products.length + 1 ∧
    (obsFor (fetch_product_page
        (fetch_product_page ⟨[], []⟩ 1 "http://x/y" (.ok "p1")
          (fun _ => .ok ⟨"W", 100, "USD", "In Stock", none⟩) (some "x") 1 true).2
        1 "http://x/y" (.ok "p2")
        (fun _ => .ok ⟨"W", 80, "USD", "In Stock", some "shop"⟩) (some "x") 2
        true).2 (nextProductId ⟨[], []⟩)).length = 2 :=
  c4_idempotent_upsert ⟨[], []⟩ 1 "http://x/y" "p1" "p2"
    ⟨"W", 100, "USD", "In Stock", none⟩ ⟨"W", 80, "USD", "In Stock", some "shop"⟩
    (some "x") (some "x") 1 2 rfl (by decide) rfl

/-- Characterization of one sweep step: a failed item (render, extraction, or
commit) leaves the store exactly as it was — the rollback — and a successful
item commits the overwrite of its own row plus one appended observation. -/
theorem refreshOneStep_eq (env : RefreshEnv) (db : DB) (p : Product) :
    (itemOk env p = false → refreshOneStep env db p = (db, false)) ∧
    (∀ s, itemFields env p = some s → itemOk env p = true →
      refreshOneStep env db p
        = ({ products := db.products.map
               (fun q => if q.id == p.id then applyRefresh q s env.now else q)
             history := db.history ++
               [⟨db.history.length + 1, p.id, s.price, s.currency, env.now⟩] }, true)) := by
  cases hr : env.render p.url with
  | error m =>
    constructor
    · intro _
      simp only [refreshOneStep, hr]
    · intro s hs _
      simp only [itemFields, hr] at hs
      exact Option.noConfusion hs
  | ok page =>
    cases hx : env.extract page with
    | error m =>
      constructor
      · intro _
        simp only [refreshOneStep, hr, hx]
      · intro s hs _
        simp only [itemFields, hr, hx] at hs
        exact Option.noConfusion hs
    | ok s0 =>
      constructor
      · intro hok
        simp only [itemOk, hr, hx] at hok
        simp only [refreshOneStep, hr, hx, hok, Bool.false_eq_true, if_false]
      · intro s hs hok
        simp only [itemFields, hr, hx, Option.some_inj] at hs
        simp only [itemOk, hr, hx] at hok
        subst hs
        simp only [refreshOneStep, hr, hx, hok, if_true]

/-- The success flag of a sweep step is `itemOk`. -/
theorem refreshOneStep_snd (env : RefreshEnv) (db : DB) (p : Product) :
    (refreshOneStep env db p).2 = itemOk env p := by
  cases hr : env.render p.url with
  | error m => simp [refreshOneStep, itemOk, hr]
  | ok page =>
    cases hx : env.extract page with
    | error m => simp [refreshOneStep, itemOk, hr, hx]
    | ok s =>
      cases hc : env.commitOk p.id <;>
        simp [refreshOneStep, itemOk, hr, hx, hc]

/-- Filtering by an id commutes with an id-preserving in-place update and, for
ids the update fixes, leaves the row set unchanged. -/
theorem filter_by_id_map (l : List Product) (pid : Nat) (f : Product → Product)
    (hfid : ∀ q, (f q).id = q.id) (hfix : ∀ q, q.id = pid → f q = q) :
    (l.map f).filter (fun q => q.id == pid) = l.filter (fun q => q.id == pid) := by
  induction l with
  | nil => rfl
  | cons q l' ih =>
    simp only [List.map_cons, List.filter_cons, hfid q]
    by_cases hq : q.id = pid
    · have hb : (q.id == pid) = true := by simp [hq]
      simp [hb, hfix q hq, ih]
    · have hb : (q.id == pid) = false := by simp [hq]
      simp [hb, ih]

/-- Filtering by an id commutes with mapping an id-preserving function. -/
theorem filter_by_id_map_comm (l : List Product) (pid : Nat) (f : Product → Product)
    (hfid : ∀ q, (f q).id = q.id) :
    (l.map f).filter (fun q => q.id == pid) = (l.filter (fun q => q.id == pid)).map f := by
  induction l with
  | nil => rfl
  | cons q l' ih =>
    simp only [List.map_cons, List.filter_cons, hfid q]
    by_cases hb : (q.id == pid) = true
    · simp [hb, ih]
    · simp [Bool.eq_false_iff.mpr hb, ih]

/-- A sweep step never touches the rows or observations of another product. -/
theorem refreshOneStep_frame (env : RefreshEnv) (db : DB) (p : Product) (pid : Nat)
    (hne : pid ≠ p.id) :
    rowsFor (refreshOneStep env db p).1 pid = rowsFor db pid ∧
    obsFor (refreshOneStep env db p).1 pid = obsFor db pid := by
  cases hr : env.render p.url with
  | error m => simp [refreshOneStep, hr]
  | ok page =>
    cases hx : env.extract page with
    | error m => simp [refreshOneStep, hr, hx]
    | ok s =>
      by_cases hc : env.commitOk p.id
      · simp only [refreshOneStep, hr, hx, hc, if_true]
        constructor
        · simp only [rowsFor]
          apply filter_by_id_map
          · intro q
            by_cases h : (q.id == p.id) = true
            · rw [if_pos h]; rfl
            · rw [if_neg h]
          · intro q hq
            have hb : (q.id == p.id) = false := by
              simp [hq, hne]
            simp [hb]
        · simp only [obsFor, List.filter_append]
          have hb : ((⟨db.history.length + 1, p.id, s.price, s.currency, env.now⟩ :
              PriceHistory).product_id == pid) = false := by
            simp
            exact fun hh => hne hh.symm
          simp [hb]
      · simp [refreshOneStep, hr, hx, hc]

/-- A successful sweep step overwrites exactly its own rows and appends
exactly one observation for its own product id. -/
theorem refreshOneStep_succ (env : RefreshEnv) (db : DB) (p : Product) (s : StructuredFields)
    (hs : itemFields env p = some s) (hok : itemOk env p = true) :
    rowsFor (refreshOneStep env db p).1 p.id
      = (rowsFor db p.id).map (fun q => applyRefresh q s env.now) ∧
    obsFor (refreshOneStep env db p).1 p.id
      = obsFor db p.id ++ [⟨db.history.length + 1, p.id, s.price, s.currency, env.now⟩] := by
  rw [(refreshOneStep_eq env db p).2 s hs hok]
  constructor
  · simp only [rowsFor]
    rw [filter_by_id_map_comm]
    · apply List.map_congr_left
      intro q hq
      have hqid : (q.id == p.id) = true := by
        simpa using (List.mem_filter.mp hq).2
      rw [if_pos hqid]
    · intro q
      by_cases h : (q.id == p.id) = true
      · rw [if_pos h]; rfl
      · rw [if_neg h]
  · simp only [obsFor, List.filter_append]
    simp

/-- The sweep fold splits into the store fold and the per-item outcome log. -/
theorem sweep_pair (env : RefreshEnv) : ∀ (ps : List Product) (db : DB)
    (log : List (Nat × Bool)),
    ps.foldl (fun acc p =>
        let r := refreshOneStep env acc.1 p
        (r.1, acc.2 ++ [(p.id, r.2)])) (db, log)
      = (ps.foldl (fun d p => (refreshOneStep env d p).1) db,
         log ++ ps.map (fun p => (p.id, itemOk env p))) := by
  intro ps
  induction ps with
  | nil => intro db log; simp
  | cons p ps ih =>
    intro db log
    simp only [List.foldl_cons, List.map_cons]
    rw [refreshOneStep_snd]
    rw [ih]
    simp

/-- Products whose id never occurs in the remaining iteration keep their rows
and observations through the rest of the sweep. -/
theorem sweepDb_frame (env : RefreshEnv) (pid : Nat) : ∀ (ps : List Product) (db : DB),
    pid ∉ ps.map (fun q => q.id) →
    rowsFor (ps.foldl (fun d p => (refreshOneStep env d p).1) db) pid = rowsFor db pid ∧
    obsFor (ps.foldl (fun d p => (refreshOneStep env d p).1) db) pid = obsFor db pid := by
  intro ps
  induction ps with
  | nil => intro db _; exact ⟨rfl, rfl⟩
  | cons p ps ih =>
    intro db hnot
    have hne : pid ≠ p.id := by
      intro hh
      exact hnot (by simp [hh])
    have hrest : pid ∉ ps.map (fun q => q.id) := by
      intro hh
      exact hnot (by simp [hh])
    simp only [List.foldl_cons]
    obtain ⟨hr1, hr2⟩ := ih ((refreshOneStep env db p).1) hrest
    obtain ⟨hs1, hs2⟩ := refreshOneStep_frame env db p pid hne
    exact ⟨hr1.trans hs1, hr2.trans hs2⟩

/-- C1: in a batch refresh sweep over products with distinct ids, the outcome
log records every item in order (the sweep never aborts early); a failed item
— render, extraction, or persistence — keeps that product's rows and its
observation list exactly as before the sweep (its transaction is rolled
back); and a successful item has its rows overwritten with the extracted
fields and exactly one new observation appended. -/
theorem c1_batch_isolation (env : RefreshEnv) (db0 : DB)
    (hids : (db0.products.map (fun q => q.id)).Nodup) (p : Product)
    (hp : p ∈ db0.products) :
    (refresh_all_products env db0).2
      = db0.products.map (fun q => (q.id, itemOk env q)) ∧
    (itemOk env p = false →
      rowsFor (refresh_all_products env db0).1 p.id = rowsFor db0 p.id ∧
      obsFor (refresh_all_products env db0).1 p.id = obsFor db0 p.id) ∧
    (∀ s, itemFields env p = some s → itemOk env p = true →
      rowsFor (refresh_all_products env db0).1 p.id
        = (rowsFor db0 p.id).map (fun q => applyRefresh q s env.now) ∧
      ∃ ob, obsFor (refresh_all_products env db0).1 p.id = obsFor db0 p.id ++ [ob] ∧
        ob.product_id = p.id ∧ ob.price = s.price ∧ ob.currency = s.currency ∧
        ob.timestamp = env.now) := by
  have hrap : refresh_all_products env db0
      = (db0.products.foldl (fun d q => (refreshOneStep env d q).1) db0,
         db0.products.map (fun q => (q.id, itemOk env q))) := by
    simp only [refresh_all_products]
    rw [sweep_pair env db0.products db0 []]
    simp
  obtain ⟨l1, l2, hsplit⟩ := List.append_of_mem hp
  have hnotin : p.id ∉ l1.map (fun q => q.id) ∧ p.id ∉ l2.map (fun q => q.id) := by
    rw [hsplit] at hids
    simp only [List.map_append, List.map_cons, List.nodup_append, List.nodup_cons] at hids
    obtain ⟨_, ⟨hl2, _⟩, hdisj⟩ := hids
    refine ⟨fun hmem => ?_, hl2⟩
    exact hdisj hmem (by simp)
  have hfold : db0.products.foldl (fun d q => (refreshOneStep env d q).1) db0
      = l2.foldl (fun d q => (refreshOneStep env d q).1)
          ((refreshOneStep env (l1.foldl (fun d q => (refreshOneStep env d q).1) db0) p).1) := by
    rw [hsplit, List.foldl_append, List.foldl_cons]
  set dbA := l1.foldl (fun d q => (refreshOneStep env d q).1) db0 with hdbA
  have hframeA := sweepDb_frame env p.id l1 db0 hnotin.1
  refine ⟨by rw [hrap], ?_, ?_⟩
  · intro hfail
    have hstep : refreshOneStep env dbA p = (dbA, false) :=
      (refreshOneStep_eq env dbA p).1 hfail
    have hframeB := sweepDb_frame env p.id l2 dbA hnotin.2
    rw [hrap]
    constructor
    · show rowsFor (db0.products.foldl (fun d q => (refreshOneStep env d q).1) db0) p.id
        = rowsFor db0 p.id
      rw [hfold, hstep]
      exact hframeB.1.trans hframeA.1
    · show obsFor (db0.products.foldl (fun d q => (refreshOneStep env d q).1) db0) p.id
        = obsFor db0 p.id
      rw [hfold, hstep]
      exact hframeB.2.trans hframeA.2
  · intro s hs hok
    have hstep := refreshOneStep_succ env dbA p s hs hok
    have hframeB := sweepDb_frame env p.id l2 ((refreshOneStep env dbA p).1) hnotin.2
    rw [hrap]
    constructor
    · show rowsFor (db0.products.foldl (fun d q => (refreshOneStep env d q).1) db0) p.id
        = (rowsFor db0 p.id).map (fun q => applyRefresh q s env.now)
      rw [hfold]
      rw [hframeB.1, hstep.1, hframeA.1]
    · refine ⟨⟨dbA.history.length + 1, p.id, s.price, s.currency, env.now⟩, ?_, rfl, rfl, rfl, rfl⟩
      show obsFor (db0.products.foldl (fun d q => (refreshOneStep env d q).1) db0) p.id
        = obsFor db0 p.id ++ [⟨dbA.history.length + 1, p.id, s.price, s.currency, env.now⟩]
      rw [hfold]
      rw [hframeB.2, hstep.2, hframeA.2]

/-- Sweep environment of the concrete batch-isolation scenario: renders
succeed except for the second item's URL, extraction and commits succeed. -/
def c1SweepEnv : RefreshEnv :=
  ⟨fun u => if u = "u2" then .error "render timeout" else .ok ("page:" ++ u),
   fun _ => .ok ⟨"T", 42, "USD", "In Stock", some "site.com"⟩,
   fun _ => true, 9⟩

/-- Store of the concrete batch-isolation scenario: three tracked products,
each with one prior observation. -/
def c1SweepDb : DB :=
  ⟨[⟨1, 1, "u1", some "t1", some "d1", some "In Stock", some 1, 0⟩,
    ⟨2, 1, "u2", some "t2", some "d2", some "In Stock", some 1, 0⟩,
    ⟨3, 1, "u3", some "t3", some "d3", some "In Stock", some 1, 0⟩],
   [⟨1, 1, 10, "USD", 1⟩, ⟨2, 2, 20, "USD", 1⟩, ⟨3, 3, 30, "USD", 1⟩]⟩

/-- C1 witness: with 3 products where item 2's render always fails, the sweep
logs (1, ok), (2, failed), (3, ok); item 2's row and observations are
untouched, and item 1's row is overwritten with the extracted fields. -/
theorem c1_batch_isolation_witness :
    (refresh_all_products c1SweepEnv c1SweepDb).2
      = c1SweepDb.products.map (fun q => (q.id, itemOk c1SweepEnv q)) ∧
    (refresh_all_products c1SweepEnv c1SweepDb).2 = [(1, true), (2, false), (3, true)] ∧
    rowsFor (refresh_all_products c1SweepEnv c1SweepDb).1 2 = rowsFor c1SweepDb 2 ∧
    obsFor (refresh_all_products c1SweepEnv c1SweepDb).1 2 = obsFor c1SweepDb 2 ∧
    rowsFor (refresh_all_products c1SweepEnv c1SweepDb).1 1
      = (rowsFor c1SweepDb 1).map
          (fun q => applyRefresh q ⟨"T", 42, "USD", "In Stock", some "site.com"⟩
            c1SweepEnv.now) := by
  obtain ⟨hlog, hfail, _⟩ := c1_batch_isolation c1SweepEnv c1SweepDb (by decide)
    ⟨2, 1, "u2", some "t2", some "d2", some "In Stock", some 1, 0⟩ (by decide)
  obtain ⟨hf1, hf2⟩ := hfail (by decide)
  obtain ⟨_, _, hsucc⟩ := c1_batch_isolation c1SweepEnv c1SweepDb (by decide)
    ⟨1, 1, "u1", some "t1", some "d1", some "In Stock", some 1, 0⟩ (by decide)
  obtain ⟨hrows1, _⟩ := hsucc ⟨"T", 42, "USD", "In Stock", some "site.com"⟩
    (by decide) (by decide)
  exact ⟨hlog, by rw [hlog]; decide, hf1, hf2, hrows1⟩
